import Mathlib

/-!
Verification of the statistics-normalization pipeline, the parallel
statistical download, the cloud-free mosaic evalscript and the forest-change
computation of the `bids-cdse-jupyter` notebooks
(`2_Pollution_Statistics_with_Pandas/Air_Pollution_Statistics.ipynb`).

Shallow embedding: JSON payloads are modelled as nested string/number values,
a pandas dataframe as a list of rows, each row an ordered association list of
column name and cell; each cell is a string, a rational number, or NaN.
-/

namespace AirPollution

mutual
/-- A JSON-like value as returned by the Statistical API: each element of
`pollution_stats` holds, under its `"data"` key, a list of such records. -/
inductive JVal : Type where
  | str : String → JVal
  | num : Rat → JVal
  | obj : JFields → JVal
/-- The ordered field list of a JSON object. -/
inductive JFields : Type where
  | nil : JFields
  | cons : String → JVal → JFields → JFields
end

/-- One cell of the dataframe: a string, a (rational) number, or NaN.
NaN models both pandas missing values and `to_numeric` coercion failures. -/
inductive Cell : Type where
  | str : String → Cell
  | num : Rat → Cell
  | nan : Cell
deriving DecidableEq

/-- A dataframe row: an ordered association list of column name and cell. -/
abbrev Row := List (String × Cell)

/-- A dataframe: a list of rows. -/
abbrev Frame := List Row

/-- Dot-joining of nested keys as done by `pd.json_normalize` (the top level
uses the empty path). -/
def joinKey (p k : String) : String := if p = "" then k else p ++ "." ++ k

mutual
/-- Flattening of one nested record into one row, with dot-joined column
names: the behaviour of `pd.json_normalize` on a single record. -/
def flattenVal (p : String) : JVal → Row
  | .str s => [(p, .str s)]
  | .num q => [(p, .num q)]
  | .obj fs => flattenFields p fs
/-- Flattening of the fields of a nested object, in field order. -/
def flattenFields (p : String) : JFields → Row
  | .nil => []
  | .cons k v rest => flattenVal (joinKey p k) v ++ flattenFields p rest
end

/-- One statistics response of the Statistical API: the list of time-bucket
records found under its `"data"` key. -/
structure StatResponse where
  data : List JVal

/-- The call `pd.json_normalize(stats["data"])`: one flattened row per
time-bucket record, in record order. -/
def json_normalize (data : List JVal) : Frame :=
  data.map (flattenVal "")

/-- The assignment `df["name"] = capital`: a new `"name"` column holding the
capital's name is appended to every row of the frame. -/
def addName (capital : String) (df : Frame) : Frame :=
  df.map (fun row => row ++ [("name", Cell.str capital)])

/-- The loop `for df, capital in zip(no2_dfs, selected_capitals.name):
df["name"] = capital`. Python's `zip` stops at the shorter list, so frames
beyond the number of names are left untouched. -/
def tagFrames : List Frame → List String → List Frame
  | [], _ => []
  | dfs, [] => dfs
  | df :: dfs, n :: ns => addName n df :: tagFrames dfs ns

/-- Substring containment over character lists, the semantics of Python's
`'stats' in col`. -/
def containsSub (needle : List Char) : List Char → Bool
  | [] => needle.isEmpty
  | c :: rest => needle.isPrefixOf (c :: rest) || containsSub needle rest

/-- The predicate `'stats' in col` selecting `stat_cols`. -/
def isStatCol (col : String) : Bool :=
  containsSub "stats".data col.data

/-- Accumulating evaluation of a run of decimal digits; `none` on the first
non-digit character. -/
def digitsValAux : Nat → List Char → Option Nat
  | acc, [] => some acc
  | acc, c :: rest =>
    if c.isDigit then digitsValAux (10 * acc + (c.toNat - 48)) rest else none

/-- Evaluation of a nonempty all-digit run; `none` otherwise. -/
def digitsVal (l : List Char) : Option Nat :=
  if l.isEmpty then none else digitsValAux 0 l

/-- Splitting of a character list on every occurrence of a separator, the
semantics of Python's `x.split(sep)` for a one-character separator. -/
def splitOnChar (sep : Char) : List Char → List (List Char)
  | [] => [[]]
  | c :: rest =>
    match splitOnChar sep rest with
    | [] => [[]]
    | seg :: segs => if c = sep then [] :: seg :: segs else (c :: seg) :: segs

/-- The column renaming `lambda x: x.split(".")[-1]`: keep only the final
dot-separated segment of the column name. -/
def renameCol (x : String) : String :=
  String.mk ((splitOnChar '.' x.data).getLastD [])

/-- Consumption of an optional leading sign; `true` means negative. -/
def parseSign : List Char → Bool × List Char
  | '+' :: rest => (false, rest)
  | '-' :: rest => (true, rest)
  | l => (false, l)

/-- Parsing of a decimal mantissa (digits with an optional decimal point,
where one side of the point may be empty but not both), as accepted by the
numeric parser behind `pd.to_numeric`. -/
def parseMantissa? (l : List Char) : Option Rat :=
  match splitOnChar '.' l with
  | [ip] => (digitsVal ip).map (fun n => (n : Rat))
  | [ip, fp] =>
    if ip.isEmpty && fp.isEmpty then none
    else
      match digitsValAux 0 ip, digitsValAux 0 fp with
      | some i, some f => some ((i : Rat) + (f : Rat) / (10 : Rat) ^ fp.length)
      | _, _ => none
  | _ => none

/-- Parsing of a signed decimal exponent. -/
def parseExp? (l : List Char) : Option Int :=
  let (neg, rest) := parseSign l
  (digitsVal rest).map (fun n => if neg then -(n : Int) else (n : Int))

/-- Numeric parsing of a string as a finite decimal with optional sign and
exponent: the accepting fragment of the parser behind
`pd.to_numeric`; `none` models an unparseable value. -/
def parseRat? (s : String) : Option Rat :=
  let (neg, rest) := parseSign s.data
  let applySign := fun (q : Rat) => if neg then -q else q
  match splitOnChar 'e' (rest.map Char.toLower) with
  | [m] => (parseMantissa? m).map applySign
  | [m, e] =>
    match parseMantissa? m, parseExp? e with
    | some q, some ex => some (applySign (q * (10 : Rat) ^ ex))
    | _, _ => none
  | _ => none

/-- Element-wise `pd.to_numeric(errors="coerce")`: numbers and NaN pass
through, a string is parsed to a number, and an unparseable string becomes
NaN instead of raising. -/
def to_numeric (c : Cell) : Cell :=
  match c with
  | .num q => .num q
  | .nan => .nan
  | .str s =>
    match parseRat? s with
    | some q => .num q
    | none => .nan

/-- The assignment `no2_df[stat_cols] = no2_df[stat_cols].apply(pd.to_numeric,
errors="coerce")` restricted to one row: coercion is applied exactly to the
cells whose column name contains `'stats'`. -/
def coerceRow (row : Row) : Row :=
  row.map (fun kc => (kc.1, if isStatCol kc.1 then to_numeric kc.2 else kc.2))

/-- The numeric-coercion step over the whole frame. -/
def coerceFrame (df : Frame) : Frame := df.map coerceRow

/-- The renaming step restricted to one row. -/
def renameRow (row : Row) : Row :=
  row.map (fun kc => (renameCol kc.1, kc.2))

/-- The call `no2_df.rename(columns=lambda x: x.split(".")[-1])`. -/
def renameFrame (df : Frame) : Frame := df.map renameRow

/-- Extraction of the month from the `"from"` cell: the month digits of an
ISO timestamp `YYYY-MM-...` sit at character positions 5 and 6. -/
def monthOf : Option Cell → Cell
  | some (.str s) =>
    match digitsVal ((s.data.drop 5).take 2) with
    | some m => .num m
    | none => .nan
  | _ => .nan

/-- The assignment deriving `no2_df["month"]` from the `"from"` column,
restricted to one row. -/
def addMonthRow (row : Row) : Row :=
  row ++ [("month", monthOf (row.lookup "from"))]

/-- The month-derivation step over the whole frame. -/
def addMonth (df : Frame) : Frame := df.map addMonthRow

/-- The full normalization cell producing `no2_df`: flatten each response's
`"data"` records, tag rows with their capital's name, concatenate with
`ignore_index=True`, coerce the statistic columns to numbers, abbreviate the
column names, and derive the month column. -/
def normalize (pollution_stats : List StatResponse) (names : List String) :
    Frame :=
  let no2_dfs := pollution_stats.map (fun stats => json_normalize stats.data)
  let tagged := tagFrames no2_dfs names
  let no2_df := tagged.flatten
  addMonth (renameFrame (coerceFrame no2_df))

/-- Modelled from the spec: `SentinelHubStatisticalDownloadClient.download`
is external library code (sentinelhub-py), not part of this repository. The
spec states that the result list matches the input list one-to-one in order
and that any single request failure fails the whole collection call with no
partial result; `fetch` stands for the side-effect-free remote read of one
request. -/
def download {Req Err Res : Type} (fetch : Req → Except Err Res) :
    List Req → Except Err (List Res)
  | [] => .ok []
  | r :: rs =>
    match fetch r, download fetch rs with
    | .error e, _ => .error e
    | .ok _, .error e => .error e
    | .ok v, .ok vs => .ok (v :: vs)

/-- One acquisition sample handed to `evaluatePixel` of
`evalscript_cloudless`: the four reflectance bands and the scene
classification code. -/
structure Sample where
  B08 : Rat
  B04 : Rat
  B03 : Rat
  B02 : Rat
  SCL : Nat

/-- The evalscript's `validate`: a sample is valid when its SCL code is none
of 0, 1, 3, 7, 8, 9, 10. -/
def validate (sample : Sample) : Bool :=
  let invalid : List Nat := [0, 1, 3, 7, 8, 9, 10]
  !(invalid.contains sample.SCL)

/-- The evalscript's `getFirstQuartile`: the element at index
`Math.floor(length / 4)` of an ascending-sorted list. -/
def getFirstQuartile (sortedValues : List Rat) : Rat :=
  sortedValues.getD (sortedValues.length / 4) 0

/-- The evalscript's `getFirstQuartileValue`: ascending numeric sort
(`values.sort((a,b) => a-b)`) followed by `getFirstQuartile`. -/
def getFirstQuartileValue (values : List Rat) : Rat :=
  getFirstQuartile (values.mergeSort (fun a b => a ≤ b))

/-- The evalscript's `evaluatePixel`: filter the samples to the valid ones;
with at least one valid sample return the first-quartile B04, B03, B02 and
the NDVI of the first-quartile B08 and B04, all scaled by 10000; with none
return the no-data value -32768 in all four bands. -/
def evaluatePixel (samples : List Sample) : List Rat :=
  let valid := samples.filter validate
  if valid.length > 0 then
    let b08 := getFirstQuartileValue (valid.map Sample.B08)
    let b04 := getFirstQuartileValue (valid.map Sample.B04)
    let b03 := getFirstQuartileValue (valid.map Sample.B03)
    let b02 := getFirstQuartileValue (valid.map Sample.B02)
    let ndvi := (b08 - b04) / (b08 + b04)
    [b04, b03, b02, ndvi].map (fun v => v * 10000)
  else
    [-32768, -32768, -32768, -32768]

/-- The classification `ds_s2["FOREST"] = ds_s2.NDVI > 0.7` at one pixel of
one year; `none` models a NaN NDVI value, which compares as not-greater. -/
def FOREST (ndvi : Option Rat) : Bool :=
  match ndvi with
  | some v => (7 : Rat) / 10 < v
  | none => false

/-- The cast `.astype(int)` of the boolean forest mask. -/
def astypeInt (b : Bool) : Int := if b then 1 else 0

/-- The call `.diff("year", label="upper")` along one pixel's year series:
each later year's value minus its predecessor's. -/
def diffYear (l : List Int) : List Int :=
  (l.zip (l.drop 1)).map (fun p => p.2 - p.1)

/-- The assignment `ds_s2["CHANGE"] = ds_s2.FOREST.astype(int).diff("year",
label="upper")` along one pixel's NDVI year series. -/
def CHANGE (ndvis : List (Option Rat)) : List Int :=
  diffYear ((ndvis.map FOREST).map astypeInt)

/-! Helper lemmas shared by several claims. -/

lemma addName_length (n : String) (df : Frame) :
    (addName n df).length = df.length := by
  simp [addName]

lemma tagFrames_length (dfs : List Frame) (ns : List String) :
    (tagFrames dfs ns).length = dfs.length := by
  induction dfs generalizing ns with
  | nil => cases ns <;> simp [tagFrames]
  | cons df dfs ih =>
    cases ns with
    | nil => simp [tagFrames]
    | cons n ns' => simp [tagFrames, ih]

lemma tagFrames_map_length (dfs : List Frame) (ns : List String) :
    (tagFrames dfs ns).map List.length = dfs.map List.length := by
  induction dfs generalizing ns with
  | nil => cases ns <;> simp [tagFrames]
  | cons df dfs ih =>
    cases ns with
    | nil => simp [tagFrames]
    | cons n ns' => simp [tagFrames, ih, addName_length]

/-! Claim theorems. -/

/-- C1: for every list of statistics responses, the normalization step
produces a table whose number of rows equals the sum, over the spatial
units, of the number of time-bucket records in that unit's response. -/
theorem c1_row_count_eq_sum (pollution_stats : List StatResponse)
    (names : List String) :
    (normalize pollution_stats names).length =
      (pollution_stats.map (fun r => r.data.length)).sum := by
  simp only [normalize, addMonth, renameFrame, coerceFrame, List.length_map,
    List.length_flatten, tagFrames_map_length]
  simp only [List.map_map]
  have hfun : (List.length ∘ fun stats : StatResponse => json_normalize stats.data) =
      fun r : StatResponse => r.data.length :=
    funext fun r => by simp [json_normalize]
  rw [hfun]

/-- C4: normalization is deterministic; two runs of the normalization
pipeline on the same input payload produce the same table. In this pure
embedding the pipeline is a function of its input alone, so the two runs
coincide definitionally. -/
theorem c4_normalize_deterministic (pollution_stats : List StatResponse)
    (names : List String) :
    normalize pollution_stats names = normalize pollution_stats names := rfl

/-- C5: when the parallel download call returns a result list, it has
exactly one element per input request, and the i-th result is the value
fetched for the i-th input request. -/
theorem c5_download_order {Req Err Res : Type} (fetch : Req → Except Err Res)
    (reqs : List Req) (results : List Res)
    (h : download fetch reqs = Except.ok results) :
    results.length = reqs.length ∧
      ∀ i (hi : i < reqs.length),
        ∃ v, results[i]? = some v ∧ fetch reqs[i] = Except.ok v := by
  induction reqs generalizing results with
  | nil =>
    simp only [download] at h
    cases h
    exact ⟨rfl, fun i hi => absurd hi (by simp)⟩
  | cons r rs ih =>
    simp only [download] at h
    cases hf : fetch r with
    | error e => rw [hf] at h; exact absurd h (by simp)
    | ok v =>
      rw [hf] at h
      cases hd : download fetch rs with
      | error e => rw [hd] at h; exact absurd h (by simp)
      | ok vs =>
        rw [hd] at h
        simp only [Except.ok.injEq] at h
        subst h
        obtain ⟨hlen, hall⟩ := ih vs hd
        refine ⟨by simp [hlen], ?_⟩
        intro i hi
        cases i with
        | zero => exact ⟨v, by simp, by simpa using hf⟩
        | succ j =>
          obtain ⟨w, h1, h2⟩ := hall j (by simpa using hi)
          exact ⟨w, by simpa using h1, by simpa using h2⟩

/-- Witness for C5 at a concrete fetch function and request list. -/
theorem c5_download_order_witness :
    ([2, 3] : List Nat).length = ([1, 2] : List Nat).length :=
  (c5_download_order (fun n => (Except.ok (n + 1) : Except Unit Nat))
    [1, 2] [2, 3] rfl).1

/-- C6: the batch download is all-or-nothing; if any request fails the whole
call raises (returns an error, no partial result list), and if none fails
all results are returned. -/
theorem c6_download_all_or_nothing {Req Err Res : Type}
    (fetch : Req → Except Err Res) (reqs : List Req) :
    ((∃ r ∈ reqs, ∃ e, fetch r = Except.error e) →
      ∃ e, download fetch reqs = Except.error e) ∧
    ((∀ r ∈ reqs, ∃ v, fetch r = Except.ok v) →
      ∃ results, download fetch reqs = Except.ok results ∧
        results.length = reqs.length) := by
  induction reqs with
  | nil =>
    constructor
    · rintro ⟨r, hr, -⟩
      simp at hr
    · intro _
      exact ⟨[], rfl, rfl⟩
  | cons r rs ih =>
    constructor
    · rintro ⟨r', hr', e, he⟩
      rcases List.mem_cons.mp hr' with rfl | hmem
      · exact ⟨e, by simp [download, he]⟩
      · obtain ⟨e', he'⟩ := ih.1 ⟨r', hmem, e, he⟩
        cases hf : fetch r with
        | error e2 => exact ⟨e2, by simp [download, hf]⟩
        | ok v => exact ⟨e', by simp [download, hf, he']⟩
    · intro hall
      obtain ⟨v, hv⟩ := hall r (List.mem_cons_self r rs)
      obtain ⟨vs, hvs, hlen⟩ := ih.2 (fun x hx => hall x (List.mem_cons_of_mem r hx))
      exact ⟨v :: vs, by simp [download, hv, hvs], by simp [hlen]⟩

/-- Witness for C6: a batch with one failing request errors out, and a batch
with no failing request returns a full result list. -/
theorem c6_download_all_or_nothing_witness :
    (∃ e, download (fun n : Nat => if n = 0 then Except.error "bad" else Except.ok n)
      [1, 0] = Except.error e) ∧
    (∃ results, download (fun n : Nat => (Except.ok n : Except String Nat))
      [1, 2] = Except.ok results ∧ results.length = ([1, 2] : List Nat).length) := by
  constructor
  · exact (c6_download_all_or_nothing
      (fun n : Nat => if n = 0 then Except.error "bad" else Except.ok n) [1, 0]).1
      ⟨0, by simp, "bad", rfl⟩
  · exact (c6_download_all_or_nothing
      (fun n : Nat => (Except.ok n : Except String Nat)) [1, 2]).2
      (fun x _ => ⟨x, rfl⟩)

/-- C10: the year-over-year forest-change value is always -1, 0 or 1: it is
the difference of two integer-cast booleans. -/
theorem c10_change_in_range (ndvis : List (Option Rat)) :
    ∀ c ∈ CHANGE ndvis, c = -1 ∨ c = 0 ∨ c = 1 := by
  intro c hc
  simp only [CHANGE, diffYear, List.mem_map] at hc
  obtain ⟨⟨a, b⟩, hmem, rfl⟩ := hc
  have ha : a ∈ (ndvis.map FOREST).map astypeInt := (List.of_mem_zip hmem).1
  have hb : b ∈ (ndvis.map FOREST).map astypeInt :=
    List.mem_of_mem_drop (List.of_mem_zip hmem).2
  obtain ⟨x, -, rfl⟩ := List.mem_map.mp ha
  obtain ⟨y, -, rfl⟩ := List.mem_map.mp hb
  cases x <;> cases y <;> simp [astypeInt]

/-- C2: during numeric coercion no row is dropped (the step is a total
per-row map preserving the row count and the column names), an unparseable
statistic string becomes NaN while a parseable one becomes its number, and
cells of non-statistic columns are left untouched. -/
theorem c2_coerce_keeps_rows_nan :
    (∀ df : Frame, (coerceFrame df).length = df.length) ∧
    (∀ s : String, parseRat? s = none →
      to_numeric (Cell.str s) = Cell.nan) ∧
    (∀ (s : String) (q : Rat), parseRat? s = some q →
      to_numeric (Cell.str s) = Cell.num q) ∧
    (∀ row : Row, (coerceRow row).map Prod.fst = row.map Prod.fst) ∧
    (∀ (row : Row) (j : Nat) (hj : j < row.length),
      isStatCol (row[j].1) = false → (coerceRow row)[j]? = some row[j]) ∧
    (∀ (row : Row) (j : Nat) (hj : j < row.length),
      isStatCol (row[j].1) = true →
        (coerceRow row)[j]? = some (row[j].1, to_numeric row[j].2)) := by
  refine ⟨?_, ?_, ?_, ?_, ?_, ?_⟩
  · intro df; simp [coerceFrame]
  · intro s h; simp [to_numeric, h]
  · intro s q h; simp [to_numeric, h]
  · intro row
    simp only [coerceRow, List.map_map]
    rfl
  · intro row j hj h
    rw [coerceRow, List.getElem?_map, List.getElem?_eq_getElem hj]
    simp [h]
  · intro row j hj h
    rw [coerceRow, List.getElem?_map, List.getElem?_eq_getElem hj]
    simp [h]

/-- Witness for C2: an unparseable statistic value is coerced to NaN, the
frame keeps its rows, and a non-statistic cell passes through unchanged. -/
theorem c2_coerce_keeps_rows_nan_witness :
    to_numeric (Cell.str "N/A") = Cell.nan ∧
    (coerceFrame [[("outputs.default.bands.NO2.stats.mean", Cell.str "N/A")],
      [("interval.from", Cell.str "2022-07-01T00:00:00Z")]]).length = 2 ∧
    (coerceRow [("interval.from", Cell.str "2022-07-01T00:00:00Z")])[0]? =
      some ("interval.from", Cell.str "2022-07-01T00:00:00Z") := by
  obtain ⟨h1, h2, h3, h4, h5, h6⟩ := c2_coerce_keeps_rows_nan
  refine ⟨h2 "N/A" (by decide), ?_, ?_⟩
  · exact (h1 [[("outputs.default.bands.NO2.stats.mean", Cell.str "N/A")],
      [("interval.from", Cell.str "2022-07-01T00:00:00Z")]]).trans rfl
  · exact (h5 [("interval.from", Cell.str "2022-07-01T00:00:00Z")] 0
      (by decide) (by decide)).trans rfl

/-! Helper lemmas on `splitOnChar` for the column-rename claim. -/

lemma splitOnChar_ne_nil (sep : Char) (l : List Char) :
    splitOnChar sep l ≠ [] := by
  cases l with
  | nil => simp [splitOnChar]
  | cons c rest =>
    simp only [splitOnChar]
    rcases h : splitOnChar sep rest with - | ⟨seg, segs⟩
    · simp
    · dsimp only
      split <;> simp

lemma splitOnChar_of_not_mem {sep : Char} {l : List Char} (h : sep ∉ l) :
    splitOnChar sep l = [l] := by
  induction l with
  | nil => rfl
  | cons c rest ih =>
    have hc : ¬ c = sep := by
      rintro rfl
      exact h (List.mem_cons_self _ _)
    have hrest : sep ∉ rest := fun hm => h (List.mem_cons_of_mem _ hm)
    simp [splitOnChar, ih hrest, hc]

lemma two_le_splitOnChar_length {sep : Char} {l : List Char} (h : sep ∈ l) :
    2 ≤ (splitOnChar sep l).length := by
  induction l with
  | nil => simp at h
  | cons c rest ih =>
    by_cases hc : c = sep
    · subst hc
      simp only [splitOnChar]
      rcases hsp : splitOnChar c rest with - | ⟨seg, segs⟩
      · exact absurd hsp (splitOnChar_ne_nil _ _)
      · simp
    · have hm : sep ∈ rest := by
        rcases List.mem_cons.mp h with h1 | h1
        · exact absurd h1.symm hc
        · exact h1
      have hlen := ih hm
      simp only [splitOnChar]
      rcases hsp : splitOnChar sep rest with - | ⟨seg, segs⟩
      · exact absurd hsp (splitOnChar_ne_nil _ _)
      · rw [hsp] at hlen
        simp only [List.length_cons] at hlen
        simp [hc]
        omega

lemma getLastD_eq_of_ne_nil {α : Type} {l : List α} (h : l ≠ []) (d₁ d₂ : α) :
    l.getLastD d₁ = l.getLastD d₂ := by
  cases l with
  | nil => exact absurd rfl h
  | cons a l => rw [List.getLastD_cons, List.getLastD_cons]

lemma splitOnChar_sep_append (sep : Char) (l₁ l₂ : List Char) :
    (splitOnChar sep (l₁ ++ sep :: l₂)).getLastD [] =
      (splitOnChar sep l₂).getLastD [] := by
  induction l₁ with
  | nil =>
    simp only [List.nil_append, splitOnChar]
    rcases hsp : splitOnChar sep l₂ with - | ⟨seg, segs⟩
    · exact absurd hsp (splitOnChar_ne_nil _ _)
    · simp [List.getLastD_cons]
  | cons c rest ih =>
    simp only [List.cons_append, splitOnChar]
    rcases hsp : splitOnChar sep (rest ++ sep :: l₂) with - | ⟨seg, segs⟩
    · exact absurd hsp (splitOnChar_ne_nil _ _)
    · rw [hsp] at ih
      by_cases hc : c = sep
      · simpa [hc, List.getLastD_cons] using ih
      · have h2 : 2 ≤ (splitOnChar sep (rest ++ sep :: l₂)).length :=
          two_le_splitOnChar_length (by simp)
        rw [hsp] at h2
        simp only [List.length_cons] at h2
        have hne : segs ≠ [] := by
          intro hnil
          rw [hnil] at h2
          simp at h2
        simp only [hc, if_false, List.getLastD_cons] at ih ⊢
        calc segs.getLastD (c :: seg) = segs.getLastD seg :=
              getLastD_eq_of_ne_nil hne _ _
          _ = (splitOnChar sep l₂).getLastD [] := ih

lemma string_mk_data (s : String) : String.mk s.data = s := by
  cases s
  rfl

/-- C8: the rename step keeps only the final dot-separated segment of a
column name, and leaves a name without a dot unchanged. -/
theorem c8_rename_last_segment :
    (∀ p k : String, '.' ∉ k.data → renameCol (p ++ "." ++ k) = k) ∧
    (∀ x : String, '.' ∉ x.data → renameCol x = x) := by
  constructor
  · intro p k hk
    have hdata : (p ++ "." ++ k).data = p.data ++ '.' :: k.data := by
      simp [String.data_append]
    rw [renameCol, hdata, splitOnChar_sep_append, splitOnChar_of_not_mem hk]
    simp [string_mk_data]
  · intro x hx
    rw [renameCol, splitOnChar_of_not_mem hx]
    simp [string_mk_data]

/-- Witness for C8: the dotted statistic path keeps its final segment and
the dot-free `"name"` column is unchanged. -/
theorem c8_rename_last_segment_witness :
    renameCol ("outputs.default.bands.NO2.stats" ++ "." ++ "mean") = "mean" ∧
    renameCol "name" = "name" :=
  ⟨c8_rename_last_segment.1 "outputs.default.bands.NO2.stats" "mean" (by decide),
   c8_rename_last_segment.2 "name" (by decide)⟩

/-! Machinery locating individual rows of the concatenated table. -/

/-- Number of rows contributed by the spatial units before the i-th one:
the sum of their time-bucket record counts. -/
def offsetOf (stats : List StatResponse) (i : Nat) : Nat :=
  ((stats.take i).map (fun r => r.data.length)).sum

/-- Row-level effect of the tagging loop on the row of a frame that is
zipped with a capital name (`some`) or beyond the zipped range (`none`). -/
def tagRowOpt : Option String → Row → Row
  | none, row => row
  | some n, row => row ++ [("name", Cell.str n)]

/-- Frame-level effect of the tagging loop on one frame. -/
def tagFrameOpt : Option String → Frame → Frame
  | none, df => df
  | some n, df => addName n df

/-- The row-wise tail of the pipeline applied after concatenation: numeric
coercion, column rename, month derivation. -/
def postRow (row : Row) : Row := addMonthRow (renameRow (coerceRow row))

lemma tagFrames_getElem? (dfs : List Frame) (ns : List String) (i : Nat) :
    (tagFrames dfs ns)[i]? = (dfs[i]?).map (tagFrameOpt ns[i]?) := by
  induction dfs generalizing ns i with
  | nil => cases ns <;> simp [tagFrames]
  | cons df dfs ih =>
    cases ns with
    | nil =>
      rcases h : (df :: dfs)[i]? with - | x <;>
        simp [tagFrames, tagFrameOpt, h]
    | cons n ns' =>
      cases i with
      | zero => simp [tagFrames, tagFrameOpt]
      | succ j => simp [tagFrames, ih]

lemma tagFrameOpt_getElem? (o : Option String) (df : Frame) (k : Nat) :
    (tagFrameOpt o df)[k]? = (df[k]?).map (tagRowOpt o) := by
  rcases h : df[k]? with - | row <;> cases o <;>
    simp [tagFrameOpt, tagRowOpt, addName, List.getElem?_map, h]

lemma tagFrameOpt_length (o : Option String) (df : Frame) :
    (tagFrameOpt o df).length = df.length := by
  cases o <;> simp [tagFrameOpt, addName_length]

lemma flatten_getElem?_sum {α : Type} (L : List (List α)) (i k : Nat)
    (hi : i < L.length) (hk : k < L[i].length) :
    L.flatten[((L.take i).map List.length).sum + k]? = some (L[i][k]) := by
  induction L generalizing i with
  | nil => simp at hi
  | cons x L ih =>
    cases i with
    | zero =>
      simp only [List.getElem_cons_zero] at hk ⊢
      simp only [List.take_zero, List.map_nil, List.sum_nil, Nat.zero_add,
        List.flatten_cons]
      rw [List.getElem?_append_left hk]
      exact List.getElem?_eq_getElem hk
    | succ j =>
      have hi' : j < L.length := by simpa using hi
      have hk' : k < L[j].length := by simpa using hk
      simp only [List.take_succ_cons, List.map_cons, List.sum_cons,
        List.flatten_cons, List.getElem_cons_succ]
      rw [Nat.add_assoc, List.getElem?_append_right (Nat.le_add_right _ _),
        Nat.add_sub_cancel_left]
      exact ih j hi' hk'

lemma normalize_getElem? (stats : List StatResponse) (names : List String)
    (i k : Nat) (hi : i < stats.length) (hk : k < (stats[i]).data.length) :
    (normalize stats names)[offsetOf stats i + k]? =
      some (postRow (tagRowOpt names[i]? (flattenVal "" ((stats[i]).data[k])))) := by
  set dfs := stats.map (fun stats => json_normalize stats.data) with hdfs
  set T := tagFrames dfs names with hT
  have hdfsi : dfs[i]? = some (json_normalize (stats[i]).data) := by
    rw [hdfs, List.getElem?_map, List.getElem?_eq_getElem hi]
    rfl
  have hTi? : T[i]? = some (tagFrameOpt names[i]? (json_normalize (stats[i]).data)) := by
    rw [hT, tagFrames_getElem?, hdfsi]
    rfl
  have hiT : i < T.length := by
    rw [hT, tagFrames_length, hdfs, List.length_map]
    exact hi
  have hTi : T[i] = tagFrameOpt names[i]? (json_normalize (stats[i]).data) := by
    have h := List.getElem?_eq_getElem hiT
    rw [hTi?] at h
    exact (Option.some.inj h).symm
  have hkT : k < (T[i]).length := by
    rw [hTi, tagFrameOpt_length, json_normalize, List.length_map]
    exact hk
  have hmaplen : T.map List.length = stats.map (fun r => r.data.length) := by
    rw [hT, tagFrames_map_length, hdfs, List.map_map]
    have hfun : (List.length ∘ fun stats : StatResponse => json_normalize stats.data) =
        fun r : StatResponse => r.data.length :=
      funext fun r => by simp [json_normalize]
    rw [hfun]
  have hoff : ((T.take i).map List.length).sum = offsetOf stats i := by
    rw [List.map_take, hmaplen, ← List.map_take, offsetOf]
  have hflat : T.flatten[offsetOf stats i + k]? = some (T[i][k]) := by
    rw [← hoff]
    exact flatten_getElem?_sum T i k hiT hkT
  have hTik : T[i][k] = tagRowOpt names[i]? (flattenVal "" ((stats[i]).data[k])) := by
    have h1 : (T[i])[k]? =
        some (tagRowOpt names[i]? (flattenVal "" ((stats[i]).data[k]))) := by
      rw [hTi, tagFrameOpt_getElem?, json_normalize, List.getElem?_map,
        List.getElem?_eq_getElem hk]
      rfl
    have h2 := List.getElem?_eq_getElem hkT
    rw [h1] at h2
    exact (Option.some.inj h2).symm
  have hnorm : normalize stats names = addMonth (renameFrame (coerceFrame T.flatten)) := rfl
  rw [hnorm, addMonth, renameFrame, coerceFrame, List.getElem?_map,
    List.getElem?_map, List.getElem?_map, hflat, hTik]
  simp [postRow]

/-- C3: row order in the concatenated table is stable. The row found at
global position (rows of units before i) + k is exactly the processed k-th
record of the i-th unit's response: units appear in input order, records of
one unit keep their order, and nothing is sorted, dropped or deduplicated. -/
theorem c3_row_order_stable (stats : List StatResponse) (names : List String)
    (i k : Nat) (hi : i < stats.length) (hk : k < (stats[i]).data.length) :
    (normalize stats names)[offsetOf stats i + k]? =
      some (postRow (tagRowOpt names[i]? (flattenVal "" ((stats[i]).data[k])))) :=
  normalize_getElem? stats names i k hi hk

/-- Concrete time-bucket record used by witnesses. -/
def recEx1 : JVal :=
  .obj (.cons "interval" (.obj (.cons "from" (.str "2022-07-01T00:00:00Z") .nil)) .nil)

/-- Second concrete time-bucket record used by witnesses. -/
def recEx2 : JVal :=
  .obj (.cons "interval" (.obj (.cons "from" (.str "2022-08-01T00:00:00Z") .nil)) .nil)

/-- Concrete response list used by witnesses: one record for the first unit,
two for the second. -/
def statsEx : List StatResponse := [⟨[recEx1]⟩, ⟨[recEx1, recEx2]⟩]

/-- Concrete capital names used by witnesses. -/
def namesEx : List String := ["Amsterdam", "Berlin"]

/-- Witness for C3: the second record of the second unit sits at global
position 1 + 1 of the concatenated table. -/
theorem c3_row_order_stable_witness :
    (normalize statsEx namesEx)[offsetOf statsEx 1 + 1]? =
      some (postRow (tagRowOpt namesEx[1]? (flattenVal "" recEx2))) :=
  c3_row_order_stable statsEx namesEx 1 1 (by decide) (by decide)

lemma mem_postRow_name (cap : String) (r : Row)
    (h : ("name", Cell.str cap) ∈ r) : ("name", Cell.str cap) ∈ postRow r := by
  have hstat : isStatCol "name" = false := by decide
  have hren : renameCol "name" = "name" := by decide
  have h1 : ("name", Cell.str cap) ∈ coerceRow r := by
    have hm := List.mem_map_of_mem
      (fun kc : String × Cell => (kc.1, if isStatCol kc.1 then to_numeric kc.2 else kc.2)) h
    simpa [coerceRow, hstat] using hm
  have h2 : ("name", Cell.str cap) ∈ renameRow (coerceRow r) := by
    have hm := List.mem_map_of_mem
      (fun kc : String × Cell => (renameCol kc.1, kc.2)) h1
    simpa [renameRow, hren] using hm
  simp only [postRow, addMonthRow]
  exact List.mem_append_left _ h2

lemma tagFrames_mem_addName {dfs : List Frame} {ns : List String}
    (hlen : dfs.length ≤ ns.length) {df : Frame}
    (hdf : df ∈ tagFrames dfs ns) : ∃ n df₀, df = addName n df₀ := by
  induction dfs generalizing ns with
  | nil => simp [tagFrames] at hdf
  | cons d dfs ih =>
    cases ns with
    | nil => simp at hlen
    | cons n ns' =>
      simp only [tagFrames, List.mem_cons] at hdf
      rcases hdf with rfl | hdf
      · exact ⟨n, d, rfl⟩
      · exact ih (by simp at hlen; omega) hdf

/-- C7: with one response per selected unit, every row of the output table
carries a `"name"` label, and the row at global position (rows of units
before i) + k is tagged with exactly the i-th unit's name. -/
theorem c7_rows_tagged_with_unit_name (stats : List StatResponse)
    (names : List String) (hlen : stats.length = names.length) :
    (∀ row ∈ normalize stats names, ∃ cap, ("name", Cell.str cap) ∈ row) ∧
    (∀ i k (hi : i < stats.length) (hk : k < (stats[i]).data.length),
      ∃ row, (normalize stats names)[offsetOf stats i + k]? = some row ∧
        ∃ hi2 : i < names.length, ("name", Cell.str names[i]) ∈ row) := by
  constructor
  · intro row hrow
    have hpipe : normalize stats names =
        ((tagFrames (stats.map fun stats => json_normalize stats.data) names).flatten).map
          postRow := by
      simp only [normalize, addMonth, renameFrame, coerceFrame, List.map_map]
      rfl
    rw [hpipe] at hrow
    obtain ⟨r0, hr0, rfl⟩ := List.mem_map.mp hrow
    obtain ⟨df, hdf, hr0df⟩ := List.mem_flatten.mp hr0
    have hdlen : (stats.map fun stats => json_normalize stats.data).length ≤
        names.length := by
      simpa using hlen.le
    obtain ⟨n, df₀, rfl⟩ := tagFrames_mem_addName hdlen hdf
    obtain ⟨row₀, hrow₀, rfl⟩ := List.mem_map.mp hr0df
    exact ⟨n, mem_postRow_name n _ (List.mem_append_right _ (by simp))⟩
  · intro i k hi hk
    have hi2 : i < names.length := hlen ▸ hi
    have hn : names[i]? = some names[i] := List.getElem?_eq_getElem hi2
    refine ⟨postRow (tagRowOpt names[i]? (flattenVal "" ((stats[i]).data[k]))),
      normalize_getElem? stats names i k hi hk, hi2, ?_⟩
    rw [hn]
    exact mem_postRow_name _ _ (by simp [tagRowOpt])

/-- Witness for C7 at the concrete two-unit response list. -/
theorem c7_rows_tagged_with_unit_name_witness :
    (∀ row ∈ normalize statsEx namesEx, ∃ cap, ("name", Cell.str cap) ∈ row) ∧
    (∀ i k (hi : i < statsEx.length) (hk : k < (statsEx[i]).data.length),
      ∃ row, (normalize statsEx namesEx)[offsetOf statsEx i + k]? = some row ∧
        ∃ hi2 : i < namesEx.length, ("name", Cell.str namesEx[i]) ∈ row) :=
  c7_rows_tagged_with_unit_name statsEx namesEx rfl

/-- Specification-side description of the first-quartile selection: q is the
element at index floor(n/4) of an ascending-sorted rearrangement of the n
given values. -/
def firstQuartileOfValues (values : List Rat) (q : Rat) : Prop :=
  ∃ sorted : List Rat, sorted.Perm values ∧ sorted.Sorted (· ≤ ·) ∧
    sorted[values.length / 4]? = some q

lemma getFirstQuartileValue_spec (values : List Rat)
    (hne : 0 < values.length) :
    firstQuartileOfValues values (getFirstQuartileValue values) := by
  have htrans : ∀ a b c : Rat, (fun a b : Rat => decide (a ≤ b)) a b = true →
      (fun a b : Rat => decide (a ≤ b)) b c = true →
      (fun a b : Rat => decide (a ≤ b)) a c = true := by
    intro a b c h1 h2
    simp only [decide_eq_true_eq] at h1 h2 ⊢
    exact le_trans h1 h2
  have htotal : ∀ a b : Rat, ((fun a b : Rat => decide (a ≤ b)) a b ||
      (fun a b : Rat => decide (a ≤ b)) b a) = true := by
    intro a b
    simpa using le_total a b
  set sorted := values.mergeSort (fun a b => a ≤ b) with hs
  have hperm : sorted.Perm values := List.mergeSort_perm values _
  have hlen : sorted.length = values.length := hperm.length_eq
  have hsorted : sorted.Sorted (· ≤ ·) := by
    have hp := List.sorted_mergeSort htrans htotal values
    exact List.Pairwise.imp (fun h => of_decide_eq_true h) hp
  have hidx : values.length / 4 < sorted.length := by
    rw [hlen]
    exact Nat.div_lt_self hne (by norm_num)
  refine ⟨sorted, hperm, hsorted, ?_⟩
  rw [List.getElem?_eq_getElem hidx]
  congr 1
  rw [getFirstQuartileValue, getFirstQuartile, ← hs, hlen,
    List.getD_eq_getElem?_getD, List.getElem?_eq_getElem hidx, Option.getD_some]

/-- C9: evaluatePixel of the cloud-free mosaic evalscript returns the
no-data value -32768 in all four bands when no sample passes the validity
filter, and otherwise returns 10000 times the first-quartile (index
floor(n/4) of the ascending-sorted n valid values) of B04, B03 and B02,
plus 10000 times the NDVI of the first-quartile B08 and B04 values. -/
theorem c9_evaluatePixel_spec (samples : List Sample) :
    (samples.filter validate = [] →
      evaluatePixel samples = [-32768, -32768, -32768, -32768]) ∧
    (0 < (samples.filter validate).length →
      ∃ q08 q04 q03 q02 : Rat,
        firstQuartileOfValues ((samples.filter validate).map Sample.B08) q08 ∧
        firstQuartileOfValues ((samples.filter validate).map Sample.B04) q04 ∧
        firstQuartileOfValues ((samples.filter validate).map Sample.B03) q03 ∧
        firstQuartileOfValues ((samples.filter validate).map Sample.B02) q02 ∧
        evaluatePixel samples =
          [q04 * 10000, q03 * 10000, q02 * 10000,
            (q08 - q04) / (q08 + q04) * 10000]) := by
  constructor
  · intro h
    simp [evaluatePixel, h]
  · intro h
    have hlen8 : 0 < ((samples.filter validate).map Sample.B08).length := by
      simpa using h
    have hlen4 : 0 < ((samples.filter validate).map Sample.B04).length := by
      simpa using h
    have hlen3 : 0 < ((samples.filter validate).map Sample.B03).length := by
      simpa using h
    have hlen2 : 0 < ((samples.filter validate).map Sample.B02).length := by
      simpa using h
    refine ⟨getFirstQuartileValue ((samples.filter validate).map Sample.B08),
      getFirstQuartileValue ((samples.filter validate).map Sample.B04),
      getFirstQuartileValue ((samples.filter validate).map Sample.B03),
      getFirstQuartileValue ((samples.filter validate).map Sample.B02),
      getFirstQuartileValue_spec _ hlen8, getFirstQuartileValue_spec _ hlen4,
      getFirstQuartileValue_spec _ hlen3, getFirstQuartileValue_spec _ hlen2,
      ?_⟩
    simp only [evaluatePixel]
    rw [if_pos h]
    rfl

/-- Concrete sample stack used by the C9 witness: two valid samples and one
cloudy sample. -/
def samplesEx : List Sample := [⟨8, 4, 3, 2, 4⟩, ⟨6, 2, 1, 1, 5⟩, ⟨1, 1, 1, 1, 9⟩]

/-- Witness for C9: a fully cloudy stack returns the no-data vector, and a
stack with two valid samples satisfies the quartile characterization. -/
theorem c9_evaluatePixel_spec_witness :
    evaluatePixel [⟨1, 2, 3, 4, 9⟩] = [-32768, -32768, -32768, -32768] ∧
    (∃ q08 q04 q03 q02 : Rat,
      firstQuartileOfValues ((samplesEx.filter validate).map Sample.B08) q08 ∧
      firstQuartileOfValues ((samplesEx.filter validate).map Sample.B04) q04 ∧
      firstQuartileOfValues ((samplesEx.filter validate).map Sample.B03) q03 ∧
      firstQuartileOfValues ((samplesEx.filter validate).map Sample.B02) q02 ∧
      evaluatePixel samplesEx =
        [q04 * 10000, q03 * 10000, q02 * 10000,
          (q08 - q04) / (q08 + q04) * 10000]) :=
  ⟨(c9_evaluatePixel_spec [⟨1, 2, 3, 4, 9⟩]).1 rfl,
   (c9_evaluatePixel_spec samplesEx).2 (by decide)⟩

/-- Witness for C10 at a concrete NDVI year series with a forest loss. -/
theorem c10_change_in_range_witness :
    (-1 : Int) = -1 ∨ (-1 : Int) = 0 ∨ (-1 : Int) = 1 :=
  c10_change_in_range [some 1, some 0] (-1)
    (by norm_num [CHANGE, diffYear, FOREST, astypeInt])

end AirPollution
